import Mathlib

/-
Verification development for the folding-scheme library (Nova / HyperNova IVC with
an EVM onchain decider).  The definitions below are shallow embeddings of the Rust
source: pure functions become Lean functions, fallible Rust functions returning
`Result<T, Error>` become `Except Error T`, curve points are represented in affine
form as `Option (coordinates)` with `none` standing for the point at infinity, and
code from external collaborator crates (arkworks field/curve arithmetic, Poseidon,
pairings, Groth16) is taken as an abstract function parameter.
-/

set_option linter.unusedVariables false

namespace Sonobe

/-- Error taxonomy of the library (`folding-schemes/src/lib.rs`), restricted to the
variants reachable from the functions embedded in this development.  `PolyCommitError`
stands for the wrapped `ark_poly_commit::error::Error::TooManyCoefficients` carrying
`num_coefficients` and `num_powers`. -/
inductive Error where
  | NotSatisfied : Error
  | NotSameLength : String → Nat → String → Nat → Error
  | NotEnoughSteps : Error
  | BlindingNotZero : Error
  | NotSupportedYet : String → Error
  | CommitmentVerificationFail : Error
  | SNARKVerificationFail : Error
  | PolyCommitError : Nat → Nat → Error
  | Other : String → Error
  deriving DecidableEq

instance {ε α : Type} [DecidableEq ε] [DecidableEq α] : DecidableEq (Except ε α) :=
  fun a b =>
    match a, b with
    | .error x, .error y =>
      if h : x = y then isTrue (by rw [h]) else isFalse (by intro hc; cases hc; exact h rfl)
    | .error _, .ok _ => isFalse (by intro hc; cases hc)
    | .ok _, .error _ => isFalse (by intro hc; cases hc)
    | .ok x, .ok y =>
      if h : x = y then isTrue (by rw [h]) else isFalse (by intro hc; cases hc; exact h rfl)

/-! ## Sparse linear algebra (`utils/vec.rs`) -/

/-- Modelled from the spec: sparse matrix over a prime field, from the data model in
section 3 of the spec — `(n_rows, n_cols, row-major list of (value, col))`; the file
`utils/vec.rs` defining `SparseMatrix` is not under `src/`. -/
structure SparseMatrix (F : Type) where
  n_rows : Nat
  n_cols : Nat
  coeffs : List (List (F × Nat))
  deriving DecidableEq

/-- Invariant of `SparseMatrix` from the spec's data model: every stored column index
is smaller than `n_cols`, and the row list has exactly `n_rows` rows. -/
def SparseMatrix.wellFormed {F : Type} (M : SparseMatrix F) : Prop :=
  M.coeffs.length = M.n_rows ∧ ∀ row ∈ M.coeffs, ∀ vc ∈ row, vc.2 < M.n_cols

instance {F : Type} (M : SparseMatrix F) : Decidable M.wellFormed := by
  unfold SparseMatrix.wellFormed; infer_instance

variable {F : Type}

/-- Modelled from the spec: sparse matrix × vector product of `utils/vec.rs` (not under
`src/`), "Sparse matrix × vector ... over a prime field"; a length mismatch between the
matrix columns and the vector is a shape-mismatch (`NotSameLength`) error. -/
def mat_vec_mul [Semiring F] (M : SparseMatrix F) (z : List F) : Except Error (List F) :=
  if M.n_cols = z.length then
    Except.ok (M.coeffs.map (fun row => (row.map (fun vc => vc.1 * z.getD vc.2 0)).sum))
  else
    Except.error (Error.NotSameLength "matrix n_cols" M.n_cols "vector" z.length)

/-- Modelled from the spec: Hadamard (entry-wise) product of `utils/vec.rs` (not under
`src/`); vectors of different lengths are a shape-mismatch error. -/
def hadamard [Mul F] (a b : List F) : Except Error (List F) :=
  if a.length = b.length then Except.ok (List.zipWith (· * ·) a b)
  else Except.error (Error.NotSameLength "a" a.length "b" b.length)

/-- Modelled from the spec: entry-wise vector subtraction of `utils/vec.rs` (not under
`src/`); vectors of different lengths are a shape-mismatch error. -/
def vec_sub [Sub F] (a b : List F) : Except Error (List F) :=
  if a.length = b.length then Except.ok (List.zipWith (· - ·) a b)
  else Except.error (Error.NotSameLength "a" a.length "b" b.length)

/-- Modelled from the spec: vector-by-scalar multiplication of `utils/vec.rs` (not
under `src/`). -/
def vec_scalar_mul [Mul F] (v : List F) (c : F) : List F :=
  v.map (fun a => a * c)

/-- Modelled from the spec: zero-vector test of `utils/vec.rs` (not under `src/`). -/
def is_zero_vec [Zero F] [DecidableEq F] (v : List F) : Bool :=
  v.all (fun x => x = 0)

/-! ## R1CS (`folding-schemes/src/arith/r1cs/mod.rs`) -/

/-- Rank-1 Constraint System with three sparse matrices `A`, `B`, `C` and the number
`l` of public inputs, as in `folding-schemes/src/arith/r1cs/mod.rs`. -/
structure R1CS (F : Type) where
  l : Nat
  A : SparseMatrix F
  B : SparseMatrix F
  C : SparseMatrix F
  deriving DecidableEq

/-- Embedding of `R1CS::eval_at_z`: fails when `z.len()` differs from the matrices'
number of columns, otherwise computes `(Az) ∘ (Bz) − z[0]·(Cz)`.  The Rust `z[0]`
index (which would panic on an empty `z`) is rendered as `z.getD 0 0`; under the
well-formedness invariant `0 < n_cols` the vector is never empty at that point. -/
def R1CS.eval_at_z [CommRing F] (r : R1CS F) (z : List F) : Except Error (List F) :=
  if z.length ≠ r.A.n_cols then
    Except.error (Error.NotSameLength "z.len()" z.length
      "number of variables in R1CS" r.A.n_cols)
  else do
    let Az ← mat_vec_mul r.A z
    let Bz ← mat_vec_mul r.B z
    let Cz ← mat_vec_mul r.C z
    let uCz := vec_scalar_mul Cz (z.getD 0 0)
    let AzBz ← hadamard Az Bz
    vec_sub AzBz uCz

/-- Embedding of `R1CS::eval_relation`: evaluate at `z = (1, u, w)`. -/
def R1CS.eval_relation [CommRing F] (r : R1CS F) (w u : List F) : Except Error (List F) :=
  r.eval_at_z ([[1], u, w].flatten)

/-- Embedding of `R1CS::check_evaluation`: succeeds exactly when the evaluation vector
is the zero vector, failing with `NotSatisfied` otherwise. -/
def R1CS.check_evaluation [Zero F] [DecidableEq F] (w u : List F) (e : List F) :
    Except Error Unit :=
  if is_zero_vec e then Except.ok () else Except.error Error.NotSatisfied

/-- Specification-side dense reading of a sparse matrix: the `(i, j)` entry is the sum
of all values stored for that position. -/
def SparseMatrix.entry [AddCommMonoid F] (M : SparseMatrix F) (i j : Nat) : F :=
  (((M.coeffs.getD i []).filter (fun vc => vc.2 = j)).map Prod.fst).sum

/-- Specification-side dense matrix-vector product: row `i` of `M·z` as the sum
`∑ j < n_cols, M i j * z j`. -/
def SparseMatrix.denseMV [Semiring F] (M : SparseMatrix F) (z : List F) (i : Nat) : F :=
  ∑ j ∈ Finset.range M.n_cols, M.entry i j * z.getD j 0

/-! ## Nova committed instances and witnesses (`src/folding/nova/mod.rs`) -/

/-- Nova committed instance `(cmE, u, cmW, x)` over scalar field `F` with commitments
in the curve group `G`, from `src/folding/nova/mod.rs`. -/
structure CommittedInstance (F G : Type) where
  cmE : G
  u : F
  cmW : G
  x : List F
  deriving DecidableEq

/-- Embedding of `CommittedInstance::empty`: commitments are the identity point,
`u = 1` and `x` is the empty vector. -/
def CommittedInstance.empty {G : Type} [One F] [Zero G] : CommittedInstance F G :=
  { cmE := 0, u := 1, cmW := 0, x := [] }

/-- Nova witness `(E, rE, W, rW)` from `src/folding/nova/mod.rs`. -/
structure Witness (F : Type) where
  E : List F
  rE : F
  W : List F
  rW : F
  deriving DecidableEq

/-- Embedding of `Witness::new`: the error vector is all zeroes of length `e_len` and
both commitment randomness values are set to one. -/
def Witness.new [Zero F] [One F] (w : List F) (e_len : Nat) : Witness F :=
  { E := List.replicate e_len 0, rE := 1, W := w, rW := 1 }

/-- Embedding of `Witness::commit`: Pedersen-commits to `E` and `W` (the Pedersen
commitment itself lives in `src/pedersen.rs`, which is not under `src/`, and is taken
as the function parameter `pc`) and returns a committed instance with `u = 1`. -/
def Witness.commit {G : Type} [One F] (pc : List F → F → G) (wit : Witness F)
    (x : List F) : CommittedInstance F G :=
  { cmE := pc wit.E wit.rE, u := 1, cmW := pc wit.W wit.rW, x := x }

/-! ## Committed-instance hashing (`src/folding/nova/mod.rs` and
`src/folding/circuits/nonnative.rs`)

Curve points of `G = C1` are represented in affine coordinates over the base field
`FQ` as `Option (FQ × FQ)`, with `none` for the point at infinity, matching the
`p.into_affine()` / `affine.is_zero()` / `affine.xy()` usage in the source.  The
arkworks limb decomposition `get_limbs_representations` is external code and enters
as the function parameter `limbs`; the Poseidon sponge `CRH::evaluate` is likewise
external and enters as the function parameter `ρ`. -/

/-- Embedding of `point_to_nonnative_limbs` (`src/folding/circuits/nonnative.rs`):
for the point at infinity the limb decompositions of `0` and `1` are returned,
otherwise those of the affine `x` and `y` coordinates. -/
def point_to_nonnative_limbs {FQ : Type} [Zero FQ] [One FQ] (limbs : FQ → List F)
    (p : Option (FQ × FQ)) : List F × List F :=
  match p with
  | none => (limbs 0, limbs 1)
  | some xy => (limbs xy.1, limbs xy.2)

/-- Embedding of `CommittedInstance::hash` (`src/folding/nova/mod.rs`): Poseidon-hash
of the concatenation `[[i, z_0, z_i, u], x, cmE_x, cmE_y, cmW_x, cmW_y]`. -/
def CommittedInstance.hash {FQ : Type} [Zero FQ] [One FQ] (ρ : List F → F)
    (limbs : FQ → List F) (ci : CommittedInstance F (Option (FQ × FQ)))
    (i z_0 z_i : F) : F :=
  let cmE_limbs := point_to_nonnative_limbs limbs ci.cmE
  let cmW_limbs := point_to_nonnative_limbs limbs ci.cmW
  ρ ([[i, z_0, z_i, ci.u], ci.x, cmE_limbs.1, cmE_limbs.2,
      cmW_limbs.1, cmW_limbs.2].flatten)

/-- Specification-side affine coordinates of a point, with the identity represented by
the `(0, 1)` convention. -/
def affineCoordsSpec {FQ : Type} [Zero FQ] [One FQ] (p : Option (FQ × FQ)) : FQ × FQ :=
  p.getD (0, 1)

/-- Specification-side hash input: the field elements `(i, z_0, z_i, u)` in this
order, then the public-input vector `x`, then the limb decompositions of `cmE`'s
coordinates followed by `cmW`'s coordinates, taking the coordinates of the point at
infinity to be `(0, 1)`. -/
def hashInputSpec {FQ : Type} [Zero FQ] [One FQ] (limbs : FQ → List F)
    (ci : CommittedInstance F (Option (FQ × FQ))) (i z_0 z_i : F) : List F :=
  [i, z_0, z_i, ci.u] ++ ci.x
    ++ limbs (affineCoordsSpec ci.cmE).1 ++ limbs (affineCoordsSpec ci.cmE).2
    ++ limbs (affineCoordsSpec ci.cmW).1 ++ limbs (affineCoordsSpec ci.cmW).2

/-! ## Nova IVC driver (`src/folding/nova/ivc.rs`)

The driver is embedded relative to a context of collaborator functions:
the user step function `step_native` (the `FCircuit` trait), the transcript
`get_challenge_nbits` squeeze (`src/transcript.rs`, not under `src/`), the
bit-recomposition `from_bits` (arkworks `BigInteger::from_bits_le` composed with
`from_bigint`), the relation check `check_instance_relation` and the dummy pair
`(w_dummy, u_dummy)` (`src/ccs/r1cs.rs`, not under `src/`), the folding prover
`NIFS::prove` (`src/folding/nova/nifs.rs`, not under `src/`), the committed-instance
hash wrapper `hashCI` (Poseidon-based), the witness extraction `extract_z` of the
synthesized augmented circuit (arkworks constraint system), and the Pedersen
commitment `pedersen_commit` (`src/pedersen.rs`, not under `src/`). -/

/-- Private inputs handed to the augmented circuit, mirroring the fields of the
`AugmentedFCircuit` struct built inside `IVC::prove_step` (minus the Poseidon
configuration and the `FCircuit` phantom). -/
structure AugmentedFCircuit (F G : Type) where
  i : F
  z_0 : List F
  z_i : List F
  u_i : CommittedInstance F G
  U_i : CommittedInstance F G
  U_i1 : CommittedInstance F G
  cmT : G
  r : F
  x : F
  deriving DecidableEq

/-- Collaborator context of `IVC`: the curve generator, the R1CS shape data `l` and
`n_rows`, and the external / not-under-`src` functions listed above. -/
structure IVCCtx (F G TS : Type) where
  gen : G
  l : Nat
  n_rows : Nat
  step_native : List F → List F
  get_challenge_nbits : TS → List Bool × TS
  from_bits : List Bool → F
  check_instance_relation : Witness F → CommittedInstance F G → Bool
  nifs_prove : F → Witness F → CommittedInstance F G → Witness F →
    CommittedInstance F G → Witness F × CommittedInstance F G × List F × G
  hashCI : CommittedInstance F G → F → List F → List F → F
  extract_z : AugmentedFCircuit F G → List F
  pedersen_commit : List F → F → G
  w_dummy : Witness F
  u_dummy : CommittedInstance F G

/-- Mutable state of the `IVC` struct (`src/folding/nova/ivc.rs`). -/
structure IVCState (F G TS : Type) where
  transcript : TS
  i : F
  z_0 : List F
  z_i : List F
  w_i : Witness F
  u_i : CommittedInstance F G
  W_i : Witness F
  U_i : CommittedInstance F G
  deriving DecidableEq

/-- Embedding of `R1CS::split_z` (`folding-schemes/src/arith/r1cs/mod.rs`): returns
the pair `(z[l+1..], z[1..=l])` of witness and public inputs. -/
def split_z (l : Nat) (z : List F) : List F × List F :=
  (z.drop (l + 1), (z.drop 1).take l)

/-- Embedding of `IVC::new`: the step counter starts at zero, the state at `z_0`, and
both the incoming and the running pairs start as the dummy instances. -/
def IVC.new {G TS : Type} [Zero F] (ctx : IVCCtx F G TS) (ts : TS) (z_0 : List F) :
    IVCState F G TS :=
  { transcript := ts, i := 0, z_0 := z_0, z_i := z_0,
    w_i := ctx.w_dummy, u_i := ctx.u_dummy, W_i := ctx.w_dummy, U_i := ctx.u_dummy }

/-- Embedding of the folding phase of `IVC::prove_step` (the `if i == 0` branch and
its `else`): returns `(W_{i+1}, U_{i+1}, cmT, r, transcript')`.  In the base case the
triple is `(w_i, u_i, C1::generator())` with `r = 1` and the transcript untouched;
otherwise a challenge is squeezed, the two instance pairs are checked against the
relation, and `NIFS::prove` folds them. -/
def IVC.fold_step {G TS : Type} [Zero F] [One F] [DecidableEq F]
    (ctx : IVCCtx F G TS) (st : IVCState F G TS) :
    Except Error (Witness F × CommittedInstance F G × G × F × TS) :=
  if st.i = 0 then
    Except.ok (st.w_i, st.u_i, ctx.gen, 1, st.transcript)
  else
    let rb := ctx.get_challenge_nbits st.transcript
    let r_Fr := ctx.from_bits rb.1
    if ctx.check_instance_relation st.w_i st.u_i = false then
      Except.error Error.NotSatisfied
    else if ctx.check_instance_relation st.W_i st.U_i = false then
      Except.error Error.NotSatisfied
    else
      let res := ctx.nifs_prove r_Fr st.w_i st.u_i st.W_i st.U_i
      if ctx.check_instance_relation res.1 res.2.1 = false then
        Except.error Error.NotSatisfied
      else
        Except.ok (res.1, res.2.1, res.2.2.2, r_Fr, rb.2)

/-- Tail of `IVC::prove_step` after the folding phase: hash the folded instance into
the new public input, build the augmented-circuit inputs, extract and split the
satisfying assignment (the two Rust `assert_eq!` checks become a guard), commit to
the new witness, and advance the state with `i ← i + 1`, `z_i ← z_{i+1}`,
`(W, U) ← (W', U')`, `(w, u) ←` the new committed pair. -/
def IVC.finish_step {G TS : Type} [Zero F] [One F] [DecidableEq F] [Add F]
    (ctx : IVCCtx F G TS) (st : IVCState F G TS)
    (fold : Witness F × CommittedInstance F G × G × F × TS) :
    Except Error (AugmentedFCircuit F G × IVCState F G TS) :=
  let z_i1 := ctx.step_native st.z_i
  let W_i1 := fold.1
  let U_i1 := fold.2.1
  let cmT := fold.2.2.1
  let r := fold.2.2.2.1
  let ts' := fold.2.2.2.2
  let u_i1_x := if st.i = 0 then ctx.hashCI st.U_i 1 st.z_0 z_i1
                else ctx.hashCI U_i1 (st.i + 1) st.z_0 z_i1
  let circuit : AugmentedFCircuit F G :=
    { i := st.i, z_0 := st.z_0, z_i := st.z_i, u_i := st.u_i, U_i := st.U_i,
      U_i1 := U_i1, cmT := cmT, r := r, x := u_i1_x }
  let Z_i1 := ctx.extract_z circuit
  let wx := split_z ctx.l Z_i1
  if wx.2.length = 1 ∧ wx.2.getD 0 0 = u_i1_x then
    let w_i1 := Witness.new wx.1 ctx.n_rows
    let u_i1 := Witness.commit ctx.pedersen_commit w_i1 [u_i1_x]
    Except.ok (circuit,
      { transcript := ts', i := st.i + 1, z_0 := st.z_0, z_i := z_i1,
        w_i := w_i1, u_i := u_i1, W_i := W_i1, U_i := U_i1 })
  else
    Except.error (Error.Other "assert")

/-- Embedding of `IVC::prove_step`: the folding phase followed by the circuit/commit
tail and the state advance. -/
def IVC.prove_step {G TS : Type} [Zero F] [One F] [DecidableEq F] [Add F]
    (ctx : IVCCtx F G TS) (st : IVCState F G TS) :
    Except Error (AugmentedFCircuit F G × IVCState F G TS) := do
  let fold ← IVC.fold_step ctx st
  IVC.finish_step ctx st fold

/-- Iterated driver: perform `k` consecutive `prove_step` calls, stopping at the
first failure. -/
def IVC.steps {G TS : Type} [Zero F] [One F] [DecidableEq F] [Add F]
    (ctx : IVCCtx F G TS) : Nat → IVCState F G TS → Except Error (IVCState F G TS)
  | 0, st => Except.ok st
  | k + 1, st => do
    let res ← IVC.prove_step ctx st
    IVC.steps ctx k res.2

/-! ## KZG commitment scheme (`folding-schemes/src/commitment/kzg.rs`)

Polynomials are represented by their little-endian coefficient list (index `i`
carries the coefficient of `X^i`), matching arkworks' `DensePolynomial` whose
canonical form strips high-degree zero coefficients. -/

/-- Prover key of the KZG scheme: the powers `β^i · g`. -/
structure ProverKey (G : Type) where
  powers_of_g : List G
  deriving DecidableEq

/-- KZG opening proof: the claimed evaluation and the proof point. -/
structure KZGProof (F G : Type) where
  eval : F
  proof : G
  deriving DecidableEq

/-- Canonical form of a coefficient list: strip high-degree (trailing) zero
coefficients, as `DensePolynomial::from_coefficients_vec` does. -/
def trim_trailing_zeros [Zero F] [DecidableEq F] (v : List F) : List F :=
  ((v.reverse.dropWhile (fun a => decide (a = 0)))).reverse

/-- Modelled from the spec: `poly_from_vec` lives in `utils/vec.rs`, which is not
under `src/`; spec section 4.2 reads the input vector as the coefficients of the
polynomial ("commit(v, 0) computes the MSM of polynomial coefficients against
powers_of_g after trimming leading zero coefficients"). -/
def poly_from_vec [Zero F] [DecidableEq F] (v : List F) : Except Error (List F) :=
  Except.ok (trim_trailing_zeros v)

/-- Degree of a canonical-form polynomial, as arkworks computes it: zero for the zero
polynomial, `coeffs.len() - 1` otherwise (`Nat` subtraction covers both cases). -/
def polyDegree (p : List F) : Nat := p.length - 1

/-- Embedding of `check_degree_is_too_large`: with `num_coefficients = degree + 1`,
fail when `num_coefficients > num_powers`. -/
def check_degree_is_too_large (degree num_powers : Nat) : Except Error Unit :=
  if degree + 1 > num_powers then
    Except.error (Error.PolyCommitError (degree + 1) num_powers)
  else
    Except.ok ()

/-- Embedding of the counting part of `skip_first_zero_coeffs_and_convert_to_bigints`:
the number of zero low-order coefficients at the head of the list. -/
def num_leading_zeros [Zero F] [DecidableEq F] (p : List F) : Nat :=
  (p.takeWhile (fun a => decide (a = 0))).length

/-- Multi-scalar multiplication `msm_bigint`: the sum of `scalar_i • base_i` over the
zipped lists. -/
def msm {G : Type} [AddCommMonoid G] [SMul F G] (bases : List G) (scalars : List F) : G :=
  (List.zipWith (fun s b => s • b) scalars bases).sum

/-- Embedding of `KZG::commit` with the hiding const-generic `H` as a parameter: a
non-zero blinding factor or `H = true` fails with `NotSupportedYet("hiding")`;
otherwise the commitment is the MSM of the polynomial's coefficients against
`powers_of_g`, skipping zero low-order coefficients together with their bases. -/
def KZG.commit {G : Type} [Zero F] [DecidableEq F] [AddCommMonoid G] [SMul F G]
    (H : Bool) (params : ProverKey G) (v : List F) (blind : F) : Except Error G :=
  if blind ≠ 0 ∨ H then Except.error (Error.NotSupportedYet "hiding")
  else do
    let polynomial ← poly_from_vec v
    check_degree_is_too_large (polyDegree polynomial) params.powers_of_g.length
    let k := num_leading_zeros polynomial
    Except.ok (msm (params.powers_of_g.drop k) (polynomial.drop k))

/-- Synthetic division step for big-endian coefficients: `sdivGo c b l` divides the
polynomial with leading coefficient `b` followed by the coefficients `l` (highest
degree first) by `X - c`, returning the big-endian quotient coefficients and the
remainder. -/
def sdivGo [Mul F] [Add F] (c : F) (b : F) : List F → List F × F
  | [] => ([], b)
  | a :: rest =>
    let res := sdivGo c (a + c * b) rest
    (b :: res.1, res.2)

/-- Division of a canonical little-endian polynomial by the linear divisor `X - c`.
This models the external arkworks `DenseOrSparsePolynomial::divide_with_q_and_r` at
the only divisor shape the source uses (`vec![-challenge, 1]`); the quotient and the
remainder are returned in canonical form. -/
def divide_by_linear [Mul F] [Add F] [Zero F] [DecidableEq F] (p : List F) (c : F) :
    List F × List F :=
  match p.reverse with
  | [] => ([], [])
  | a :: rest =>
    let qr := sdivGo c a rest
    (qr.1.reverse, trim_trailing_zeros [qr.2])

/-- Embedding of `KZG::prove_with_challenge`: after the same hiding/blinding guard and
degree check as `commit`, divide `p(X)` by `X - challenge`, read the evaluation off
the remainder, and output the MSM of the quotient's coefficients (skipping zero
low-order coefficients together with their bases). -/
def KZG.prove_with_challenge {G : Type} [CommRing F] [DecidableEq F] [AddCommMonoid G]
    [SMul F G] (H : Bool) (params : ProverKey G) (challenge : F) (v : List F)
    (blind : F) : Except Error (KZGProof F G) :=
  if blind ≠ 0 ∨ H then Except.error (Error.NotSupportedYet "hiding")
  else do
    let polynomial ← poly_from_vec v
    check_degree_is_too_large (polyDegree polynomial) params.powers_of_g.length
    let qr := divide_by_linear polynomial challenge
    let witness_poly := qr.1
    let remainder_poly := qr.2
    let eval := if remainder_poly = [] then 0 else remainder_poly.getD 0 0
    check_degree_is_too_large (polyDegree witness_poly) params.powers_of_g.length
    let k := num_leading_zeros witness_poly
    Except.ok { eval := eval,
                proof := msm (params.powers_of_g.drop k) (witness_poly.drop k) }

/-- Specification-side evaluation of a little-endian coefficient list at a point
(Horner form). -/
def polyEval [Semiring F] (p : List F) (x : F) : F :=
  p.foldr (fun a acc => a + x * acc) 0

/-- Quotient polynomial produced by `prove_with_challenge` for coefficient vector `v`
and challenge `c`. -/
def kzgQuotient [CommRing F] [DecidableEq F] (v : List F) (c : F) : List F :=
  (divide_by_linear (trim_trailing_zeros v) c).1

/-- Big-endian Horner evaluation with an accumulator, used to reason about the
synthetic division. -/
def evalAcc [Semiring F] (x acc : F) (l : List F) : F :=
  l.foldl (fun s a => s * x + a) acc

/-- Embedding of `KZG::verify_with_challenge`.  The pairing check
`e(C − y·g + z·π, h) = e(π, β·h)` is external arkworks code (`KZG10::check`) and
enters as the function parameter `pairing_check` over the opaque verifier key type
`KVK`; a `false` outcome becomes `CommitmentVerificationFail`. -/
def KZG.verify_with_challenge {G KVK : Type}
    (pairing_check : KVK → F → G → F → G → Except Error Bool) (H : Bool)
    (params : KVK) (challenge : F) (cm : G) (pf : KZGProof F G) : Except Error Unit :=
  if H then Except.error (Error.NotSupportedYet "hiding")
  else do
    let v ← pairing_check params challenge cm pf.eval pf.proof
    if v then Except.ok () else Except.error Error.CommitmentVerificationFail

/-! ## Onchain decider (`folding-schemes/src/folding/nova/decider_eth.rs`)

The decider's scalar field is rendered as `ZMod n`; the Rust `i <= one()` comparison
is arkworks' `PrimeField` ordering, which compares the integer representatives, so it
becomes `i.val ≤ (1 : ZMod n).val`.  The Groth16 SNARK, the group-element folding
helper `DeciderNovaGadget::fold_group_elements_native`
(`folding-schemes/src/folding/circuits/decider.rs`, not under `src/`) and the
`Inputize` limb decomposition are collaborator code entering through the context. -/

/-- Decider verifier parameters (`VerifierParam` struct). -/
structure DeciderVerifierParam (F SVK KVK : Type) where
  pp_hash : F
  snark_vp : SVK
  cs_vp : KVK

/-- Decider proof (`Proof` struct of `decider_eth.rs`); the two-element Rust arrays
become pairs, index `0` first. -/
structure DeciderProof (F G SP : Type) where
  snark_proof : SP
  kzg_proofs : KZGProof F G × KZGProof F G
  cmT : G
  r : F
  kzg_challenges : F × F
  deriving DecidableEq

/-- Collaborator context of the decider verifier. -/
structure DeciderCtx (F G SP SVK KVK : Type) where
  fold_group_elements_native : List G → List G → G → F → Except Error (List G)
  inputize : G → List F
  snark_verify : SVK → List F → SP → Except Error Bool
  pairing_check : KVK → F → G → F → G → Except Error Bool

/-- Sequential KZG verification of commitment/challenge/proof triples, mirroring the
`for` loop at the end of `Decider::verify` (first failure aborts). -/
def kzg_verify_all {F G KVK : Type}
    (pairing_check : KVK → F → G → F → G → Except Error Bool) (cs_vp : KVK) :
    List (G × F × KZGProof F G) → Except Error Unit
  | [] => Except.ok ()
  | it :: rest => do
    KZG.verify_with_challenge pairing_check false cs_vp it.2.1 it.1 it.2.2
    kzg_verify_all pairing_check cs_vp rest

/-- Body of `Decider::verify` after the step-count guard: fold the commitments,
assemble the Groth16 public input in the source's order, run the SNARK verifier, and
verify the two KZG openings. -/
def Decider.post_checks {n : Nat} {G SP SVK KVK : Type}
    (ctx : DeciderCtx (ZMod n) G SP SVK KVK)
    (vp : DeciderVerifierParam (ZMod n) SVK KVK) (i : ZMod n)
    (z_0 z_i : List (ZMod n)) (running_commitments incoming_commitments : List G)
    (proof : DeciderProof (ZMod n) G SP) : Except Error Bool := do
  let U_final_commitments ← ctx.fold_group_elements_native running_commitments
    incoming_commitments proof.cmT proof.r
  let public_input :=
    [vp.pp_hash, i] ++ z_0 ++ z_i
      ++ (U_final_commitments.map ctx.inputize).flatten
      ++ [proof.kzg_challenges.1, proof.kzg_challenges.2]
      ++ [proof.kzg_proofs.1.eval, proof.kzg_proofs.2.eval]
      ++ ctx.inputize proof.cmT ++ [proof.r]
  let snark_v ← ctx.snark_verify vp.snark_vp public_input proof.snark_proof
  if snark_v = false then Except.error Error.SNARKVerificationFail
  else do
    kzg_verify_all ctx.pairing_check vp.cs_vp
      (U_final_commitments.zip
        ([proof.kzg_challenges.1, proof.kzg_challenges.2].zip
          [proof.kzg_proofs.1, proof.kzg_proofs.2]))
    Except.ok true

/-- Embedding of `Decider::verify`: reject with `NotEnoughSteps` when `i ≤ 1` (in the
representative ordering of the scalar field), otherwise run the SNARK and KZG
checks. -/
def Decider.verify {n : Nat} {G SP SVK KVK : Type}
    (ctx : DeciderCtx (ZMod n) G SP SVK KVK)
    (vp : DeciderVerifierParam (ZMod n) SVK KVK) (i : ZMod n)
    (z_0 z_i : List (ZMod n)) (running_commitments incoming_commitments : List G)
    (proof : DeciderProof (ZMod n) G SP) : Except Error Bool :=
  if i.val ≤ (1 : ZMod n).val then Except.error Error.NotEnoughSteps
  else Decider.post_checks ctx vp i z_0 z_i running_commitments incoming_commitments
    proof

/-! ## EVM calldata (`prepare_calldata` in `decider_eth.rs`)

This function is monomorphic over BN254: scalars live in `Fr = ZMod rBN`, point
coordinates in `Fq = ZMod qBN`, quadratic-extension elements are `(c0, c1)` pairs,
and affine points are `Option` pairs with `none` for the identity.  Bytes are `Nat`
values below 256; `into_bigint().to_bytes_be()` of a 254-bit field element is its
32-byte big-endian representation. -/

/-- Order of the BN254 scalar field `Fr`. -/
def rBN : Nat :=
  21888242871839275222246405745257275088548364400416034343698204186575808495617

/-- Order of the BN254 base field `Fq`. -/
def qBN : Nat :=
  21888242871839275222246405745257275088696311157297823662689037894645226208583

/-- Big-endian byte representation of a natural number on `nbytes` bytes. -/
def to_bytes_be (nbytes x : Nat) : List Nat :=
  (List.range nbytes).map (fun k => x / 256 ^ (nbytes - 1 - k) % 256)

/-- The 32 big-endian bytes of a BN254 scalar-field element. -/
def fr_bytes (x : ZMod rBN) : List Nat := to_bytes_be 32 x.val

/-- The 32 big-endian bytes of a BN254 base-field element. -/
def fq_bytes (x : ZMod qBN) : List Nat := to_bytes_be 32 x.val

/-- BN254 G1 in affine coordinates; `none` is the point at infinity. -/
def G1Affine : Type := Option (ZMod qBN × ZMod qBN)

/-- BN254 quadratic extension element as the coefficient pair `(c0, c1)`. -/
def Fq2 : Type := ZMod qBN × ZMod qBN

/-- BN254 G2 in affine coordinates over `Fq2`; `none` is the point at infinity. -/
def G2Affine : Type := Option (Fq2 × Fq2)

/-- Groth16 proof points as laid out in calldata: `a` and `c` on G1, `b` on G2. -/
structure Groth16Proof where
  a : G1Affine
  b : G2Affine
  c : G1Affine

/-- Embedding of `point_to_eth_format`: the affine identity is encoded as the
coordinates `(0, 0)`, any other point as its big-endian `x` then `y` bytes. -/
def point_to_eth_format (p : G1Affine) : Except Error (List Nat) :=
  let xy := p.getD (0, 0)
  Except.ok (fq_bytes xy.1 ++ fq_bytes xy.2)

/-- Embedding of `point2_to_eth_format`: the G2 identity is encoded as zeros, any
other point as `x.c1, x.c0, y.c1, y.c0` in big-endian bytes. -/
def point2_to_eth_format (p : G2Affine) : Except Error (List Nat) :=
  let xy := p.getD ((0, 0), (0, 0))
  Except.ok (fq_bytes xy.1.2 ++ fq_bytes xy.1.1 ++ fq_bytes xy.2.2 ++ fq_bytes xy.2.1)

/-- Embedding of `prepare_calldata`: the concatenation, in source order, of the
function selector, `i`, `z_0`, `z_i`, the running instance's `cmW` and `cmE`, the
incoming instance's `cmW`, `cmT`, `r`, the Groth16 points `a`, `b`, `c`, the two KZG
challenges, the two KZG evaluations, and the two KZG proof points. -/
def prepare_calldata (function_signature_check : List Nat) (i : ZMod rBN)
    (z_0 z_i : List (ZMod rBN))
    (running_instance incoming_instance : CommittedInstance (ZMod rBN) G1Affine)
    (proof : DeciderProof (ZMod rBN) G1Affine Groth16Proof) :
    Except Error (List Nat) := do
  let cmW_run ← point_to_eth_format running_instance.cmW
  let cmE_run ← point_to_eth_format running_instance.cmE
  let cmW_inc ← point_to_eth_format incoming_instance.cmW
  let cmT_bytes ← point_to_eth_format proof.cmT
  let pA ← point_to_eth_format proof.snark_proof.a
  let pB ← point2_to_eth_format proof.snark_proof.b
  let pC ← point_to_eth_format proof.snark_proof.c
  let kzg_pf_W ← point_to_eth_format proof.kzg_proofs.1.proof
  let kzg_pf_E ← point_to_eth_format proof.kzg_proofs.2.proof
  Except.ok ([function_signature_check,
    fr_bytes i,
    (z_0.map fr_bytes).flatten,
    (z_i.map fr_bytes).flatten,
    cmW_run, cmE_run, cmW_inc, cmT_bytes,
    fr_bytes proof.r,
    pA, pB, pC,
    fr_bytes proof.kzg_challenges.1,
    fr_bytes proof.kzg_challenges.2,
    fr_bytes proof.kzg_proofs.1.eval,
    fr_bytes proof.kzg_proofs.2.eval,
    kzg_pf_W, kzg_pf_E].flatten)

/-- Specification-side G1 encoding: the affine identity is the coordinate pair
`(0, 0)`, other points their affine coordinates, each on 32 big-endian bytes. -/
def g1_bytes_spec (p : G1Affine) : List Nat :=
  match p with
  | none => fq_bytes 0 ++ fq_bytes 0
  | some xy => fq_bytes xy.1 ++ fq_bytes xy.2

/-- Specification-side G2 encoding, `(0, 0)` for the identity. -/
def g2_bytes_spec (p : G2Affine) : List Nat :=
  match p with
  | none => fq_bytes 0 ++ fq_bytes 0 ++ fq_bytes 0 ++ fq_bytes 0
  | some xy => fq_bytes xy.1.2 ++ fq_bytes xy.1.1 ++ fq_bytes xy.2.2 ++ fq_bytes xy.2.1

/-- Specification-side calldata layout: the big-endian byte concatenation of exactly,
in order, the function selector, `i`, `z_0`, `z_i`, `cmW` of the running instance,
`cmE` of the running instance, `cmW` of the incoming instance, `cmT`, `r`, the Groth16
proof points `a` (G1), `b` (G2), `c` (G1), the two KZG challenges (W then E), the two
KZG evaluations (W then E), and the two KZG proof points (W then E). -/
def calldata_spec (function_signature_check : List Nat) (i : ZMod rBN)
    (z_0 z_i : List (ZMod rBN))
    (running_instance incoming_instance : CommittedInstance (ZMod rBN) G1Affine)
    (proof : DeciderProof (ZMod rBN) G1Affine Groth16Proof) : List Nat :=
  function_signature_check
    ++ fr_bytes i
    ++ (z_0.map fr_bytes).flatten
    ++ (z_i.map fr_bytes).flatten
    ++ g1_bytes_spec running_instance.cmW
    ++ g1_bytes_spec running_instance.cmE
    ++ g1_bytes_spec incoming_instance.cmW
    ++ g1_bytes_spec proof.cmT
    ++ fr_bytes proof.r
    ++ g1_bytes_spec proof.snark_proof.a
    ++ g2_bytes_spec proof.snark_proof.b
    ++ g1_bytes_spec proof.snark_proof.c
    ++ fr_bytes proof.kzg_challenges.1
    ++ fr_bytes proof.kzg_challenges.2
    ++ fr_bytes proof.kzg_proofs.1.eval
    ++ fr_bytes proof.kzg_proofs.2.eval
    ++ g1_bytes_spec proof.kzg_proofs.1.proof
    ++ g1_bytes_spec proof.kzg_proofs.2.proof

/-! ## Concrete instantiations

Small executable instantiations of the generic embeddings, used to evaluate the
definitions at concrete inputs.  The curve group of the IVC instantiation is the
affine-point representation `Option (ZMod 5 × ZMod 5)` with `none` as the identity;
its designated generator `some (1, 2)` is, as on any elliptic curve used by the
library, different from the identity. -/

/-- Concrete dummy committed instance (the `r1cs.dummy_instance()` output lives in
`src/ccs/r1cs.rs`, not under `src/`; its value is irrelevant to the theorems that use
this context, which hold for every dummy). -/
def udC : CommittedInstance (ZMod 5) (Option (ZMod 5 × ZMod 5)) :=
  { cmE := none, u := 1, cmW := none, x := [0] }

/-- Concrete IVC collaborator context over `F = ZMod 5`. -/
def ctxC : IVCCtx (ZMod 5) (Option (ZMod 5 × ZMod 5)) Unit :=
  { gen := some (1, 2), l := 1, n_rows := 1,
    step_native := fun z => z,
    get_challenge_nbits := fun ts => ([], ts),
    from_bits := fun _ => 0,
    check_instance_relation := fun _ _ => true,
    nifs_prove := fun _ w u _ _ => (w, u, [], none),
    hashCI := fun _ _ _ _ => 0,
    extract_z := fun _ => [1, 0],
    pedersen_commit := fun _ _ => none,
    w_dummy := Witness.new [] 1,
    u_dummy := udC }

/-- Concrete initial IVC state for `z_0 = [3]`. -/
def stC0 : IVCState (ZMod 5) (Option (ZMod 5 × ZMod 5)) Unit :=
  IVC.new ctxC () [3]

/-- Concrete IVC state reached after two successful `prove_step` calls from `stC0`. -/
def stC2 : IVCState (ZMod 5) (Option (ZMod 5 × ZMod 5)) Unit :=
  { transcript := (), i := 2, z_0 := [3], z_i := [3],
    w_i := Witness.new [] 1, u_i := udC, W_i := Witness.new [] 1, U_i := udC }

/-- Concrete R1CS over `ZMod 101` for `x^3 + x + 5 = y`, the test relation of
`arith/r1cs/mod.rs`. -/
def testR1CS : R1CS (ZMod 101) :=
  { l := 1,
    A := { n_rows := 4, n_cols := 6,
           coeffs := [[(1, 1)], [(1, 3)], [(1, 1), (1, 4)], [(5, 0), (1, 5)]] },
    B := { n_rows := 4, n_cols := 6,
           coeffs := [[(1, 1)], [(1, 1)], [(1, 0)], [(1, 0)]] },
    C := { n_rows := 4, n_cols := 6,
           coeffs := [[(1, 3)], [(1, 4)], [(1, 5)], [(1, 2)]] } }

/-- Concrete satisfying assignment `z = (1, 3, 35, 9, 27, 30)` for `testR1CS`. -/
def testZ : List (ZMod 101) := [1, 3, 35, 9, 27, 30]

/-- Concrete KZG prover key over `ZMod 5`. -/
def pkC : ProverKey (ZMod 5) := { powers_of_g := [1, 2] }

/-- Concrete KZG prover key over `ZMod 101` with four powers. -/
def pk8 : ProverKey (ZMod 101) := { powers_of_g := [1, 2, 4, 8] }

/-- Concrete decider collaborator context over `ZMod 97`. -/
def ctxD : DeciderCtx (ZMod 97) (ZMod 5) Unit Unit Unit :=
  { fold_group_elements_native := fun _ _ _ _ => Except.ok [],
    inputize := fun _ => [],
    snark_verify := fun _ _ _ => Except.ok true,
    pairing_check := fun _ _ _ _ _ => Except.ok true }

/-- Concrete decider verifier parameters. -/
def vpD : DeciderVerifierParam (ZMod 97) Unit Unit :=
  { pp_hash := 0, snark_vp := (), cs_vp := () }

/-- Concrete decider proof. -/
def proofD : DeciderProof (ZMod 97) (ZMod 5) Unit :=
  { snark_proof := (),
    kzg_proofs := ({ eval := 0, proof := 0 }, { eval := 0, proof := 0 }),
    cmT := 0, r := 0, kzg_challenges := (0, 0) }

/-! ## Theorems -/

/-- C9: `CommittedInstance::empty()` returns an instance with `cmE` and `cmW` equal to
the identity point of the curve, `u = 1`, and `x` equal to the empty vector — of
length 0, hence different from any non-empty zero vector of an instance size `l`. -/
theorem committedInstance_empty_spec {F G : Type} [Zero F] [One F] [Zero G] :
    (CommittedInstance.empty : CommittedInstance F G).cmE = 0 ∧
    (CommittedInstance.empty : CommittedInstance F G).u = 1 ∧
    (CommittedInstance.empty : CommittedInstance F G).cmW = 0 ∧
    (CommittedInstance.empty : CommittedInstance F G).x = [] ∧
    (CommittedInstance.empty : CommittedInstance F G).x.length = 0 ∧
    ∀ l : Nat,
      (CommittedInstance.empty : CommittedInstance F G).x ≠ List.replicate (l + 1) (0 : F) := by
  refine ⟨rfl, rfl, rfl, rfl, rfl, fun l h => ?_⟩
  have := congrArg List.length h
  simp [CommittedInstance.empty] at this

/-- C10: `Witness::new(w, e_len)` returns a witness whose error vector `E` is the
all-zero vector of length `e_len` and whose commitment randomness values `rE` and `rW`
are both one, and `Witness::commit` always produces a committed instance with
`u = 1`. -/
theorem witness_new_commit_spec {F G : Type} [Zero F] [One F] (w : List F) (e_len : Nat)
    (pc : List F → F → G) (x : List F) :
    (Witness.new w e_len : Witness F).E = List.replicate e_len (0 : F) ∧
    (Witness.new w e_len : Witness F).E.length = e_len ∧
    (∀ a ∈ (Witness.new w e_len : Witness F).E, a = 0) ∧
    (Witness.new w e_len : Witness F).rE = 1 ∧
    (Witness.new w e_len : Witness F).rW = 1 ∧
    ∀ wit : Witness F, (Witness.commit pc wit x).u = 1 := by
  refine ⟨rfl, by simp [Witness.new], fun a ha => ?_, rfl, rfl, fun wit => rfl⟩
  exact List.eq_of_mem_replicate ha

/-- C2: the native committed-instance hash absorbs, in this exact order, the field
elements `(i, z_0, z_i, u)`, then the public-input vector `x`, then the limb
decompositions of `cmE`'s coordinates followed by `cmW`'s coordinates, taking the
affine coordinates of the point at infinity to be `(0, 1)`. -/
theorem committedInstance_hash_spec {F FQ : Type} [Zero FQ] [One FQ] (ρ : List F → F)
    (limbs : FQ → List F) (ci : CommittedInstance F (Option (FQ × FQ)))
    (i z_0 z_i : F) :
    CommittedInstance.hash ρ limbs ci i z_0 z_i = ρ (hashInputSpec limbs ci i z_0 z_i) := by
  cases hE : ci.cmE <;> cases hW : ci.cmW <;>
    simp [CommittedInstance.hash, hashInputSpec, point_to_nonnative_limbs,
      affineCoordsSpec, hE, hW, List.append_assoc]

/-- C5 counterexample: KZG `commit` with the non-zero blinding factor 1 fails, but
with the error `NotSupportedYet("hiding")`, which is not the `BlindingNotZero`
variant named by the claim (no `HidingNotSupported` variant exists at all). -/
theorem kzg_commit_error_is_not_supported_yet :
    KZG.commit false pkC [1] (1 : ZMod 5) =
      Except.error (Error.NotSupportedYet "hiding") ∧
    Error.NotSupportedYet "hiding" ≠ Error.BlindingNotZero := by
  exact ⟨by decide, by decide⟩

/-- C5 (amended): for every coefficient vector and every non-zero blinding factor,
KZG `commit` and `prove_with_challenge` fail with `NotSupportedYet("hiding")` — an
error reporting that the hiding feature is unsupported — and never return a
commitment or a proof. -/
theorem kzg_nonzero_blinding_rejected {F G : Type} [CommRing F] [DecidableEq F]
    [AddCommMonoid G] [SMul F G] (H : Bool) (params : ProverKey G) (chal : F)
    (v : List F) (blind : F) (hb : blind ≠ 0) :
    KZG.commit H params v blind = Except.error (Error.NotSupportedYet "hiding") ∧
    KZG.prove_with_challenge H params chal v blind =
      Except.error (Error.NotSupportedYet "hiding") := by
  constructor <;> simp [KZG.commit, KZG.prove_with_challenge, hb]

/-- C5 witness: the amended claim evaluated at the concrete blinding factor 1. -/
theorem kzg_nonzero_blinding_rejected_witness :
    ((1 : ZMod 5) ≠ 0) ∧
    (KZG.commit false pkC [1] (1 : ZMod 5) =
        Except.error (Error.NotSupportedYet "hiding") ∧
      KZG.prove_with_challenge false pkC 2 [1] (1 : ZMod 5) =
        Except.error (Error.NotSupportedYet "hiding")) :=
  ⟨by decide, kzg_nonzero_blinding_rejected false pkC 2 [1] 1 (by decide)⟩

/-- Helper: `point_to_eth_format` encodes the affine identity as `(0, 0)` and any
other point as its coordinates. -/
theorem point_to_eth_format_eq (p : G1Affine) :
    point_to_eth_format p = Except.ok (g1_bytes_spec p) := by
  cases p <;> rfl

/-- Helper: `point2_to_eth_format` encodes the G2 identity as zeros and any other
point as `(x.c1, x.c0, y.c1, y.c0)`. -/
theorem point2_to_eth_format_eq (p : G2Affine) :
    point2_to_eth_format p = Except.ok (g2_bytes_spec p) := by
  cases p <;> rfl

/-- C7: `prepare_calldata` produces the big-endian byte concatenation of exactly, in
order: function selector, `i`, `z_0`, `z_i`, `cmW` of the running instance, `cmE` of
the running instance, `cmW` of the incoming instance, `cmT`, `r`, the Groth16 proof
points `a`, `b`, `c`, the two KZG challenges (W then E), the two KZG evaluations
(W then E), and the two KZG proof points (W then E); any affine identity point is
encoded as coordinates `(0, 0)`. -/
theorem prepare_calldata_layout (function_signature_check : List Nat) (i : ZMod rBN)
    (z_0 z_i : List (ZMod rBN))
    (running_instance incoming_instance : CommittedInstance (ZMod rBN) G1Affine)
    (proof : DeciderProof (ZMod rBN) G1Affine Groth16Proof) :
    prepare_calldata function_signature_check i z_0 z_i running_instance
        incoming_instance proof =
      Except.ok (calldata_spec function_signature_check i z_0 z_i running_instance
        incoming_instance proof) := by
  simp [prepare_calldata, calldata_spec, point_to_eth_format_eq,
    point2_to_eth_format_eq, bind, Except.bind, List.append_assoc]

/-- C1 counterexample: in the concrete base-case run, the `cmT` component of the
folding phase's output is the generator `some (1, 2)`, which is not the identity
point `none` that the claim asserts. -/
theorem ivc_base_case_cmT_is_generator :
    IVC.fold_step ctxC stC0 =
      Except.ok (stC0.w_i, stC0.u_i, some ((1 : ZMod 5), (2 : ZMod 5)), 1, ()) ∧
    (some ((1 : ZMod 5), (2 : ZMod 5)) : Option (ZMod 5 × ZMod 5)) ≠ none := by
  exact ⟨rfl, by decide⟩

/-- C1 (amended): in `IVC::prove_step`, when the step counter `i = 0` the folding is
skipped and the triple `(W', U', cmT)` is set to `(w_i, u_i, C1::generator())` with
`r = 1` and the transcript untouched — so the `cmT` passed to the augmented circuit
in the base case is the generator of `C1`, not the zero (identity) point. -/
theorem ivc_base_case_skips_folding {F G TS : Type} [Zero F] [One F] [DecidableEq F]
    [Add F] (ctx : IVCCtx F G TS) (st : IVCState F G TS) (h : st.i = 0) :
    IVC.fold_step ctx st = Except.ok (st.w_i, st.u_i, ctx.gen, 1, st.transcript) ∧
    ∀ (c : AugmentedFCircuit F G) (st' : IVCState F G TS),
      IVC.prove_step ctx st = Except.ok (c, st') → c.cmT = ctx.gen ∧ c.r = 1 := by
  have hf : IVC.fold_step ctx st =
      Except.ok (st.w_i, st.u_i, ctx.gen, 1, st.transcript) := by
    unfold IVC.fold_step
    rw [if_pos h]
  refine ⟨hf, fun c st' hps => ?_⟩
  unfold IVC.prove_step at hps
  rw [hf] at hps
  simp only [bind, Except.bind] at hps
  unfold IVC.finish_step at hps
  simp only [h, eq_self_iff_true, if_true, ite_true] at hps
  split at hps
  · simp only [Except.ok.injEq, Prod.mk.injEq] at hps
    obtain ⟨hc, -⟩ := hps
    subst hc
    exact ⟨rfl, rfl⟩
  · cases hps

/-- C1 witness: the amended claim evaluated in the concrete base-case state. -/
theorem ivc_base_case_skips_folding_witness :
    (stC0.i = 0) ∧
    (IVC.fold_step ctxC stC0 =
        Except.ok (stC0.w_i, stC0.u_i, ctxC.gen, 1, stC0.transcript) ∧
      ∀ (c : AugmentedFCircuit (ZMod 5) (Option (ZMod 5 × ZMod 5)))
        (st' : IVCState (ZMod 5) (Option (ZMod 5 × ZMod 5)) Unit),
        IVC.prove_step ctxC stC0 = Except.ok (c, st') → c.cmT = ctxC.gen ∧ c.r = 1) :=
  ⟨by decide, ivc_base_case_skips_folding ctxC stC0 (by decide)⟩

/-- Helper: big-endian Horner evaluation is affine in its accumulator. -/
theorem evalAcc_acc {F : Type} [CommRing F] (x : F) (l : List F) :
    ∀ acc : F, evalAcc x acc l = acc * x ^ l.length + evalAcc x 0 l := by
  induction l with
  | nil => intro acc; simp [evalAcc]
  | cons a t ih =>
    intro acc
    show evalAcc x (acc * x + a) t = acc * x ^ (a :: t).length + evalAcc x (0 * x + a) t
    rw [ih (acc * x + a), ih (0 * x + a), List.length_cons]
    ring

/-- Helper: little-endian Horner evaluation equals big-endian evaluation of the
reversed coefficient list. -/
theorem polyEval_eq_evalAcc {F : Type} [CommRing F] (p : List F) (x : F) :
    polyEval p x = evalAcc x 0 p.reverse := by
  induction p with
  | nil => rfl
  | cons a t ih =>
    have happ : evalAcc x 0 (t.reverse ++ [a]) = (evalAcc x 0 t.reverse) * x + a := by
      unfold evalAcc
      rw [List.foldl_append]
      rfl
    calc polyEval (a :: t) x = a + x * polyEval t x := rfl
      _ = a + x * evalAcc x 0 t.reverse := by rw [ih]
      _ = evalAcc x 0 ((a :: t).reverse) := by rw [List.reverse_cons, happ]; ring

/-- Helper: the remainder of the synthetic division is the big-endian evaluation of
the dividend at the division point. -/
theorem sdivGo_snd {F : Type} [CommRing F] (c : F) :
    ∀ (l : List F) (b : F), (sdivGo c b l).2 = evalAcc c b l := by
  intro l
  induction l with
  | nil => intro b; rfl
  | cons a t ih =>
    intro b
    show (sdivGo c (a + c * b) t).2 = evalAcc c (b * c + a) t
    rw [ih (a + c * b), show a + c * b = b * c + a from by ring]

/-- Helper: the synthetic-division quotient has the length of the tail. -/
theorem sdivGo_length {F : Type} [Mul F] [Add F] (c : F) :
    ∀ (l : List F) (b : F), (sdivGo c b l).1.length = l.length := by
  intro l
  induction l with
  | nil => intro b; rfl
  | cons a t ih =>
    intro b
    show ((sdivGo c (a + c * b) t).1.length + 1) = t.length + 1
    rw [ih (a + c * b)]

/-- Helper: the synthetic division satisfies the Euclidean identity
`p(x) = q(x) · (x − c) + r` for every evaluation point `x`. -/
theorem sdivGo_identity {F : Type} [CommRing F] (c x : F) :
    ∀ (l : List F) (b : F),
      evalAcc x b l = evalAcc x 0 (sdivGo c b l).1 * (x - c) + (sdivGo c b l).2 := by
  intro l
  induction l with
  | nil => intro b; simp [sdivGo, evalAcc]
  | cons a t ih =>
    intro b
    have hq : (sdivGo c b (a :: t)).1 = b :: (sdivGo c (a + c * b) t).1 := rfl
    have hr : (sdivGo c b (a :: t)).2 = (sdivGo c (a + c * b) t).2 := rfl
    rw [hq, hr]
    have hIH := ih (a + c * b)
    rw [evalAcc_acc x t (a + c * b)] at hIH
    have e1 : evalAcc x b (a :: t) = evalAcc x (b * x + a) t := rfl
    have e2 : evalAcc x 0 (b :: (sdivGo c (a + c * b) t).1)
        = evalAcc x (0 * x + b) (sdivGo c (a + c * b) t).1 := rfl
    rw [e1, e2, evalAcc_acc x t (b * x + a),
      evalAcc_acc x ((sdivGo c (a + c * b) t).1) (0 * x + b),
      sdivGo_length c t (a + c * b)]
    linear_combination hIH

/-- Helper: a polynomial whose coefficients are all zero evaluates to zero. -/
theorem polyEval_zeros {F : Type} [CommRing F] (x : F) :
    ∀ t : List F, (∀ a ∈ t, a = 0) → polyEval t x = 0 := by
  intro t
  induction t with
  | nil => intro; rfl
  | cons a t ih =>
    intro h
    show a + x * polyEval t x = 0
    rw [h a (List.mem_cons_self a t), ih (fun b hb => h b (List.mem_cons_of_mem a hb))]
    ring

/-- Helper: appending zero coefficients does not change the evaluation. -/
theorem polyEval_append_zeros {F : Type} [CommRing F] (x : F) (s t : List F)
    (h : ∀ a ∈ t, a = 0) : polyEval (s ++ t) x = polyEval s x := by
  induction s with
  | nil => exact polyEval_zeros x t h
  | cons a s ih =>
    show a + x * polyEval (s ++ t) x = a + x * polyEval s x
    rw [ih]

/-- Helper: stripping high-degree zero coefficients does not change the
evaluation. -/
theorem polyEval_trim {F : Type} [CommRing F] [DecidableEq F] (v : List F) (x : F) :
    polyEval (trim_trailing_zeros v) x = polyEval v x := by
  have hdec : v = trim_trailing_zeros v
      ++ (v.reverse.takeWhile (fun a => decide (a = 0))).reverse := by
    unfold trim_trailing_zeros
    conv_lhs => rw [← List.reverse_reverse v,
      ← List.takeWhile_append_dropWhile (fun a => decide (a = 0)) v.reverse]
    rw [List.reverse_append]
  have hz : ∀ a ∈ (v.reverse.takeWhile (fun a => decide (a = 0))).reverse, a = 0 := by
    intro a ha
    rw [List.mem_reverse] at ha
    have h2 := List.mem_takeWhile_imp ha
    simpa using h2
  conv_rhs => rw [hdec]
  rw [polyEval_append_zeros x _ _ hz]

/-- Helper: skipping the zero low-order coefficients together with their bases does
not change the MSM. -/
theorem msm_drop_leading_zeros {F G : Type} [Zero F] [DecidableEq F]
    [AddCommMonoid G] [SMulWithZero F G] (l : List F) (bases : List G) :
    msm (bases.drop (num_leading_zeros l)) (l.drop (num_leading_zeros l))
      = msm bases l := by
  induction l generalizing bases with
  | nil => rfl
  | cons a t ih =>
    by_cases ha : a = 0
    · have hn : num_leading_zeros (a :: t) = num_leading_zeros t + 1 := by
        simp [num_leading_zeros, List.takeWhile_cons, ha]
      rw [hn]
      cases bases with
      | nil => simp [msm]
      | cons b bs =>
        show msm (bs.drop (num_leading_zeros t)) (t.drop (num_leading_zeros t))
          = msm (b :: bs) (a :: t)
        rw [ih bs]
        simp [msm, List.zipWith_cons_cons, ha]
    · have hn : num_leading_zeros (a :: t) = 0 := by
        simp [num_leading_zeros, List.takeWhile_cons, ha]
      rw [hn, List.drop_zero, List.drop_zero]

/-- Helper: the quotient of the division by `X - c` is one coefficient shorter than
the dividend. -/
theorem divide_by_linear_length {F : Type} [CommRing F] [DecidableEq F] (p : List F)
    (c : F) : (divide_by_linear p c).1.length = p.length - 1 := by
  cases hrev : p.reverse with
  | nil =>
    have hp : p = [] := by rwa [List.reverse_eq_nil_iff] at hrev
    subst hp
    rfl
  | cons a rest =>
    have hlen : p.length = rest.length + 1 := by
      rw [← List.length_reverse p, hrev, List.length_cons]
    simp only [divide_by_linear, hrev, List.length_reverse, sdivGo_length, hlen]
    omega

/-- Helper: the evaluation read off the remainder of the division by `X - c` is the
polynomial's value at `c`. -/
theorem divide_by_linear_eval {F : Type} [CommRing F] [DecidableEq F] (p : List F)
    (c : F) :
    (if (divide_by_linear p c).2 = [] then (0 : F)
      else (divide_by_linear p c).2.getD 0 0) = polyEval p c := by
  cases hrev : p.reverse with
  | nil =>
    have hp : p = [] := by rwa [List.reverse_eq_nil_iff] at hrev
    subst hp
    rfl
  | cons a rest =>
    have hr : (sdivGo c a rest).2 = polyEval p c := by
      rw [sdivGo_snd, polyEval_eq_evalAcc, hrev]
      show evalAcc c a rest = evalAcc c (0 * c + a) rest
      rw [zero_mul, zero_add]
    simp only [divide_by_linear, hrev]
    by_cases hr0 : (sdivGo c a rest).2 = 0
    · rw [← hr, hr0]
      simp [trim_trailing_zeros]
    · have htrim : trim_trailing_zeros [(sdivGo c a rest).2] = [(sdivGo c a rest).2] := by
        simp [trim_trailing_zeros, List.dropWhile_cons, hr0]
      rw [htrim, if_neg (by simp), ← hr]
      rfl

/-- Helper: the division by `X - c` satisfies `p(x) = q(x)·(x − c) + p(c)` at every
point `x`. -/
theorem divide_by_linear_identity {F : Type} [CommRing F] [DecidableEq F] (p : List F)
    (c : F) (x : F) :
    polyEval p x = polyEval (divide_by_linear p c).1 x * (x - c) + polyEval p c := by
  cases hrev : p.reverse with
  | nil =>
    have hp : p = [] := by rwa [List.reverse_eq_nil_iff] at hrev
    subst hp
    show (0 : F) = 0 * (x - c) + 0
    ring
  | cons a rest =>
    have hr : (sdivGo c a rest).2 = polyEval p c := by
      rw [sdivGo_snd, polyEval_eq_evalAcc, hrev]
      show evalAcc c a rest = evalAcc c (0 * c + a) rest
      rw [zero_mul, zero_add]
    have hpx : polyEval p x = evalAcc x a rest := by
      rw [polyEval_eq_evalAcc, hrev]
      show evalAcc x (0 * x + a) rest = evalAcc x a rest
      rw [zero_mul, zero_add]
    have hqx : polyEval (divide_by_linear p c).1 x
        = evalAcc x 0 (sdivGo c a rest).1 := by
      simp only [divide_by_linear, hrev]
      rw [polyEval_eq_evalAcc, List.reverse_reverse]
    rw [hpx, hqx, ← hr]
    exact sdivGo_identity c x rest a

/-- Helper: the two degree checks inside `prove_with_challenge` pass when the trimmed
polynomial's degree is below the number of powers. -/
theorem check_degree_ok (d len : Nat) (h : d + 1 ≤ len) :
    check_degree_is_too_large d len = Except.ok () := by
  unfold check_degree_is_too_large
  rw [if_neg]
  omega

/-- C8: for every coefficient vector `v` whose polynomial has degree below the number
of prover-key powers and every challenge, `prove_with_challenge` returns a proof
whose `eval` field is the evaluation of the polynomial at the challenge and whose
proof point is the MSM of the quotient `q(X) = (p(X) − p(chal))/(X − chal)` against
the powers of `g`; the quotient satisfies the division identity at every point. -/
theorem kzg_prove_with_challenge_spec {F G : Type} [CommRing F] [DecidableEq F]
    [AddCommMonoid G] [Module F G] (params : ProverKey G) (v : List F) (chal : F)
    (hdeg : polyDegree (trim_trailing_zeros v) + 1 ≤ params.powers_of_g.length) :
    KZG.prove_with_challenge false params chal v 0 =
      Except.ok { eval := polyEval v chal,
                  proof := msm params.powers_of_g (kzgQuotient v chal) } ∧
    ∀ x : F, polyEval v x
      = polyEval (kzgQuotient v chal) x * (x - chal) + polyEval v chal := by
  have hql : (divide_by_linear (trim_trailing_zeros v) chal).1.length
      = (trim_trailing_zeros v).length - 1 := divide_by_linear_length _ chal
  have hchk2 : check_degree_is_too_large
      (polyDegree ((divide_by_linear (trim_trailing_zeros v) chal).1))
      params.powers_of_g.length = Except.ok () := by
    apply check_degree_ok
    unfold polyDegree at hdeg ⊢
    omega
  constructor
  · simp only [KZG.prove_with_challenge]
    rw [if_neg (by simp)]
    simp only [poly_from_vec, bind, Except.bind]
    rw [check_degree_ok (polyDegree (trim_trailing_zeros v))
      params.powers_of_g.length hdeg]
    simp only [bind, Except.bind]
    rw [hchk2]
    simp only [bind, Except.bind, Except.ok.injEq]
    have heval : (if (divide_by_linear (trim_trailing_zeros v) chal).2 = []
        then (0 : F)
        else (divide_by_linear (trim_trailing_zeros v) chal).2.getD 0 0)
        = polyEval v chal := by
      rw [divide_by_linear_eval, polyEval_trim]
    have hmsm : msm (params.powers_of_g.drop
          (num_leading_zeros ((divide_by_linear (trim_trailing_zeros v) chal).1)))
        (((divide_by_linear (trim_trailing_zeros v) chal).1).drop
          (num_leading_zeros ((divide_by_linear (trim_trailing_zeros v) chal).1)))
        = msm params.powers_of_g (kzgQuotient v chal) :=
      msm_drop_leading_zeros ((divide_by_linear (trim_trailing_zeros v) chal).1)
        params.powers_of_g
    rw [heval, hmsm]
  · intro x
    have hid := divide_by_linear_identity (trim_trailing_zeros v) chal x
    rw [polyEval_trim, polyEval_trim] at hid
    exact hid

/-- C8 witness: the prover evaluated at the concrete vector `[3, 1]` (polynomial
`3 + X`), challenge `2`, over `ZMod 101` with four powers. -/
theorem kzg_prove_with_challenge_spec_witness :
    (polyDegree (trim_trailing_zeros ([3, 1] : List (ZMod 101))) + 1
      ≤ pk8.powers_of_g.length) ∧
    (KZG.prove_with_challenge false pk8 2 ([3, 1] : List (ZMod 101)) 0 =
      Except.ok { eval := polyEval ([3, 1] : List (ZMod 101)) 2,
                  proof := msm pk8.powers_of_g (kzgQuotient ([3, 1] : List (ZMod 101)) 2) } ∧
    ∀ x : ZMod 101, polyEval ([3, 1] : List (ZMod 101)) x
      = polyEval (kzgQuotient ([3, 1] : List (ZMod 101)) 2) x * (x - 2)
        + polyEval ([3, 1] : List (ZMod 101)) 2) :=
  ⟨by decide, kzg_prove_with_challenge_spec pk8 [3, 1] 2 (by decide)⟩

/-- Helper: the sparse row dot product equals the dense sum over all column indices,
provided every stored column index is in range. -/
theorem dotRow_eq_denseSum {F : Type} [Semiring F] (n : Nat) (z : List F)
    (row : List (F × Nat)) (h : ∀ vc ∈ row, vc.2 < n) :
    (row.map (fun vc => vc.1 * z.getD vc.2 0)).sum
      = ∑ j ∈ Finset.range n,
          (((row.filter (fun vc => vc.2 = j)).map Prod.fst).sum) * z.getD j 0 := by
  induction row with
  | nil => simp
  | cons vc row ih =>
    have hvc : vc.2 < n := h vc (List.mem_cons_self vc row)
    have hrest : ∀ a ∈ row, a.2 < n := fun a ha => h a (List.mem_cons_of_mem vc ha)
    simp only [List.map_cons, List.sum_cons, ih hrest]
    have hsplit : ∀ j, (((vc :: row).filter (fun x => x.2 = j)).map Prod.fst).sum
        = (if vc.2 = j then vc.1 else 0)
          + ((row.filter (fun x => x.2 = j)).map Prod.fst).sum := by
      intro j
      by_cases hj : vc.2 = j
      · simp [List.filter_cons, hj]
      · simp [List.filter_cons, hj]
    calc vc.1 * z.getD vc.2 0
          + ∑ j ∈ Finset.range n,
              ((row.filter (fun x => x.2 = j)).map Prod.fst).sum * z.getD j 0
        = (∑ j ∈ Finset.range n, if vc.2 = j then vc.1 * z.getD j 0 else 0)
          + ∑ j ∈ Finset.range n,
              ((row.filter (fun x => x.2 = j)).map Prod.fst).sum * z.getD j 0 := by
          rw [Finset.sum_ite_eq (Finset.range n) vc.2 (fun j => vc.1 * z.getD j 0),
            if_pos (Finset.mem_range.mpr hvc)]
      _ = ∑ j ∈ Finset.range n,
            (((vc :: row).filter (fun x => x.2 = j)).map Prod.fst).sum * z.getD j 0 := by
          rw [← Finset.sum_add_distrib]
          refine Finset.sum_congr rfl (fun j _ => ?_)
          rw [hsplit j, add_mul, ite_mul, zero_mul]

/-- Helper: when the column count matches the vector length, `mat_vec_mul` succeeds
with the list of row dot products. -/
theorem mat_vec_mul_ok {F : Type} [Semiring F] (M : SparseMatrix F) (z : List F)
    (hc : M.n_cols = z.length) :
    mat_vec_mul M z =
      Except.ok (M.coeffs.map (fun row => (row.map (fun vc => vc.1 * z.getD vc.2 0)).sum)) := by
  simp [mat_vec_mul, hc]

/-- Helper: the `i`-th row dot product of a well-formed sparse matrix is the dense
matrix-vector product entry. -/
theorem mat_vec_mul_entry {F : Type} [Semiring F] (M : SparseMatrix F) (z : List F)
    (hwf : M.wellFormed) (i : Nat) (hi : i < M.n_rows) :
    (M.coeffs.map (fun row => (row.map (fun vc => vc.1 * z.getD vc.2 0)).sum)).getD i 0
      = M.denseMV z i := by
  have hi' : i < M.coeffs.length := by rw [hwf.1]; exact hi
  have hmap : i < (M.coeffs.map
      (fun row => (row.map (fun vc => vc.1 * z.getD vc.2 0)).sum)).length := by
    rw [List.length_map]; exact hi'
  have hrow : M.coeffs.getD i [] = M.coeffs[i] := List.getD_eq_getElem M.coeffs [] hi'
  rw [List.getD_eq_getElem (M.coeffs.map
    (fun row => (row.map (fun vc => vc.1 * z.getD vc.2 0)).sum)) 0 hmap]
  simp only [List.getElem_map]
  rw [dotRow_eq_denseSum M.n_cols z (M.coeffs[i]) (hwf.2 (M.coeffs[i])
    (List.getElem_mem hi'))]
  unfold SparseMatrix.denseMV SparseMatrix.entry
  rw [hrow]

/-- C4: for every R1CS and vector `z`, if `z.len()` differs from the matrices' number
of columns the evaluation fails with a shape-mismatch error; otherwise `eval_at_z`
returns exactly the vector `(Az) ∘ (Bz) − z[0]·(Cz)` of length `m = n_rows`, and the
satisfiability check succeeds if and only if that vector is the zero vector, failing
with `NotSatisfied` otherwise. -/
theorem r1cs_eval_check_spec {F : Type} [CommRing F] [DecidableEq F] (r : R1CS F)
    (z : List F) (hwfA : r.A.wellFormed) (hwfB : r.B.wellFormed)
    (hwfC : r.C.wellFormed) (hBc : r.B.n_cols = r.A.n_cols)
    (hCc : r.C.n_cols = r.A.n_cols) (hBr : r.B.n_rows = r.A.n_rows)
    (hCr : r.C.n_rows = r.A.n_rows) :
    (z.length ≠ r.A.n_cols →
      r.eval_at_z z = Except.error (Error.NotSameLength "z.len()" z.length
        "number of variables in R1CS" r.A.n_cols)) ∧
    (z.length = r.A.n_cols →
      ∃ e, r.eval_at_z z = Except.ok e ∧ e.length = r.A.n_rows ∧
        (∀ i, i < r.A.n_rows →
          e.getD i 0 = r.A.denseMV z i * r.B.denseMV z i
            - z.getD 0 0 * r.C.denseMV z i) ∧
        (∀ w u : List F,
          (R1CS.check_evaluation w u e = Except.ok () ↔ ∀ a ∈ e, a = 0) ∧
          (¬ (∀ a ∈ e, a = 0) →
            R1CS.check_evaluation w u e = Except.error Error.NotSatisfied))) := by
  constructor
  · intro hz
    unfold R1CS.eval_at_z
    rw [if_pos hz]
  · intro hz
    have hA := mat_vec_mul_ok r.A z hz.symm
    have hB := mat_vec_mul_ok r.B z (hBc.trans hz.symm)
    have hC := mat_vec_mul_ok r.C z (hCc.trans hz.symm)
    set f := fun (row : List (F × Nat)) => (row.map (fun vc => vc.1 * z.getD vc.2 0)).sum
      with hf
    have lA : (r.A.coeffs.map f).length = r.A.n_rows := by
      rw [List.length_map]; exact hwfA.1
    have lB : (r.B.coeffs.map f).length = r.A.n_rows := by
      rw [List.length_map, hwfB.1]; exact hBr
    have lC : (r.C.coeffs.map f).length = r.A.n_rows := by
      rw [List.length_map, hwfC.1]; exact hCr
    set vA := r.A.coeffs.map f with hvA
    set vB := r.B.coeffs.map f with hvB
    set vC := r.C.coeffs.map f with hvC
    have hHad : hadamard vA vB = Except.ok (List.zipWith (· * ·) vA vB) := by
      rw [hadamard, if_pos (by rw [lA, lB])]
    have lAB : (List.zipWith (· * ·) vA vB).length = r.A.n_rows := by
      rw [List.length_zipWith, lA, lB, min_self]
    have lsC : (vec_scalar_mul vC (z.getD 0 0)).length = r.A.n_rows := by
      rw [vec_scalar_mul, List.length_map]; exact lC
    have hSub : vec_sub (List.zipWith (· * ·) vA vB) (vec_scalar_mul vC (z.getD 0 0))
        = Except.ok (List.zipWith (· - ·) (List.zipWith (· * ·) vA vB)
            (vec_scalar_mul vC (z.getD 0 0))) := by
      rw [vec_sub, if_pos (by rw [lAB, lsC])]
    set e := List.zipWith (· - ·) (List.zipWith (· * ·) vA vB)
      (vec_scalar_mul vC (z.getD 0 0)) with he
    have hlen : e.length = r.A.n_rows := by
      rw [he, List.length_zipWith, lAB, lsC, min_self]
    refine ⟨e, ?_, hlen, ?_, ?_⟩
    · unfold R1CS.eval_at_z
      rw [if_neg (by rw [hz]; exact fun hcon => hcon rfl)]
      rw [bind, Except.instMonad]
      simp only [hA, hB, hC, hHad, hSub, bind, Except.bind]
    · intro i hi
      have hiA : i < vA.length := by rw [lA]; exact hi
      have hiB : i < vB.length := by rw [lB]; exact hi
      have hiC : i < vC.length := by rw [lC]; exact hi
      have hiE : i < e.length := by rw [hlen]; exact hi
      have eA := mat_vec_mul_entry r.A z hwfA i hi
      have eB := mat_vec_mul_entry r.B z hwfB i (by rw [← hBr] at hi; exact hi)
      have eC := mat_vec_mul_entry r.C z hwfC i (by rw [← hCr] at hi; exact hi)
      rw [List.getD_eq_getElem vA 0 hiA] at eA
      rw [List.getD_eq_getElem vB 0 hiB] at eB
      rw [List.getD_eq_getElem vC 0 hiC] at eC
      rw [List.getD_eq_getElem e 0 hiE]
      simp only [he, List.getElem_zipWith, vec_scalar_mul, List.getElem_map, eA,
        eB, eC]
      ring
    · intro w u
      constructor
      · unfold R1CS.check_evaluation
        by_cases hze : is_zero_vec e
        · rw [if_pos hze]
          simp only [true_iff]
          intro a ha
          have := (List.all_eq_true.mp hze) a ha
          exact of_decide_eq_true this
        · rw [if_neg hze]
          constructor
          · intro hcon; cases hcon
          · intro hall
            exact absurd (List.all_eq_true.mpr (fun a ha => decide_eq_true (hall a ha))) hze
      · intro hnall
        unfold R1CS.check_evaluation
        rw [if_neg]
        intro hze
        exact hnall (fun a ha => of_decide_eq_true ((List.all_eq_true.mp hze) a ha))

/-- C4 witness: the cubic test relation evaluated at its satisfying assignment. -/
theorem r1cs_eval_check_spec_witness :
    (testZ.length = testR1CS.A.n_cols ∧ testR1CS.A.wellFormed ∧ testR1CS.B.wellFormed ∧
      testR1CS.C.wellFormed ∧ testR1CS.B.n_cols = testR1CS.A.n_cols ∧
      testR1CS.C.n_cols = testR1CS.A.n_cols ∧ testR1CS.B.n_rows = testR1CS.A.n_rows ∧
      testR1CS.C.n_rows = testR1CS.A.n_rows) ∧
    (∃ e, testR1CS.eval_at_z testZ = Except.ok e ∧ e.length = testR1CS.A.n_rows ∧
        (∀ i, i < testR1CS.A.n_rows →
          e.getD i 0 = testR1CS.A.denseMV testZ i * testR1CS.B.denseMV testZ i
            - testZ.getD 0 0 * testR1CS.C.denseMV testZ i) ∧
        (∀ w u : List (ZMod 101),
          (R1CS.check_evaluation w u e = Except.ok () ↔ ∀ a ∈ e, a = 0) ∧
          (¬ (∀ a ∈ e, a = 0) →
            R1CS.check_evaluation w u e = Except.error Error.NotSatisfied))) :=
  ⟨by decide,
    (r1cs_eval_check_spec testR1CS testZ (by decide) (by decide) (by decide)
      (by decide) (by decide) (by decide) (by decide)).2 (by decide)⟩

/-- Helper: a successful `finish_step` advances the state with
`z_i ← step_native z_i` and `i ← i + 1`. -/
theorem IVC.finish_step_advances {F G TS : Type} [Zero F] [One F] [DecidableEq F]
    [Add F] (ctx : IVCCtx F G TS) (st : IVCState F G TS)
    (fold : Witness F × CommittedInstance F G × G × F × TS)
    (c : AugmentedFCircuit F G) (st' : IVCState F G TS)
    (h : IVC.finish_step ctx st fold = Except.ok (c, st')) :
    st'.z_i = ctx.step_native st.z_i ∧ st'.i = st.i + 1 := by
  unfold IVC.finish_step at h
  by_cases h0 : st.i = 0
  · simp only [if_pos h0] at h
    split at h
    · simp only [Except.ok.injEq, Prod.mk.injEq] at h
      obtain ⟨-, hst⟩ := h
      subst hst
      exact ⟨rfl, rfl⟩
    · cases h
  · simp only [if_neg h0] at h
    split at h
    · simp only [Except.ok.injEq, Prod.mk.injEq] at h
      obtain ⟨-, hst⟩ := h
      subst hst
      exact ⟨rfl, rfl⟩
    · cases h

/-- Helper: a successful `prove_step` advances the state with
`z_i ← step_native z_i` and `i ← i + 1`. -/
theorem IVC.prove_step_advances {F G TS : Type} [Zero F] [One F] [DecidableEq F]
    [Add F] (ctx : IVCCtx F G TS) (st : IVCState F G TS)
    (c : AugmentedFCircuit F G) (st' : IVCState F G TS)
    (h : IVC.prove_step ctx st = Except.ok (c, st')) :
    st'.z_i = ctx.step_native st.z_i ∧ st'.i = st.i + 1 := by
  unfold IVC.prove_step at h
  cases hf : IVC.fold_step ctx st with
  | error e =>
    rw [hf] at h
    simp only [bind, Except.bind] at h
    cases h
  | ok fold =>
    rw [hf] at h
    simp only [bind, Except.bind] at h
    exact IVC.finish_step_advances ctx st fold c st' h

/-- Helper: `k` successful `prove_step` calls iterate `step_native` `k` times on the
state and add `k` to the counter. -/
theorem IVC.steps_advances {F G TS : Type} [CommRing F] [DecidableEq F]
    (ctx : IVCCtx F G TS) :
    ∀ (k : Nat) (st st' : IVCState F G TS), IVC.steps ctx k st = Except.ok st' →
      st'.z_i = ctx.step_native^[k] st.z_i ∧ st'.i = st.i + (k : F) := by
  intro k
  induction k with
  | zero =>
    intro st st' h
    simp only [IVC.steps, Except.ok.injEq] at h
    subst h
    simp
  | succ k ih =>
    intro st st' h
    unfold IVC.steps at h
    cases hp : IVC.prove_step ctx st with
    | error e =>
      rw [hp] at h
      simp only [bind, Except.bind] at h
      cases h
    | ok p =>
      rw [hp] at h
      simp only [bind, Except.bind] at h
      have h1 := IVC.prove_step_advances ctx st p.1 p.2 (by rw [hp])
      have h2 := ih p.2 st' h
      refine ⟨?_, ?_⟩
      · rw [h2.1, h1.1, Function.iterate_succ_apply]
      · rw [h2.2, h1.2]
        push_cast
        ring

/-- C3: after initializing the driver with initial state `z_0` and performing `k`
successful `prove_step` calls, the state `z_i` equals the `k`-fold application of the
step function `step_native` to `z_0`, and the counter `i` equals `k` (as an element
of the scalar field). -/
theorem ivc_steps_iterate {F G TS : Type} [CommRing F] [DecidableEq F]
    (ctx : IVCCtx F G TS) (ts : TS) (z_0 : List F) (k : Nat)
    (st' : IVCState F G TS)
    (h : IVC.steps ctx k (IVC.new ctx ts z_0) = Except.ok st') :
    st'.z_i = ctx.step_native^[k] z_0 ∧ st'.i = (k : F) := by
  have hadv := IVC.steps_advances ctx k (IVC.new ctx ts z_0) st' h
  simpa [IVC.new] using hadv

/-- C3 witness: two successful concrete steps from `z_0 = [3]` reach the state
`stC2`, whose `z_i` is the double application of the (identity) step function and
whose counter is `2`. -/
theorem ivc_steps_iterate_witness :
    (IVC.steps ctxC 2 (IVC.new ctxC () [3]) = Except.ok stC2) ∧
    (stC2.z_i = ctxC.step_native^[2] [3] ∧ stC2.i = (2 : ZMod 5)) :=
  ⟨rfl, ivc_steps_iterate ctxC () [3] 2 stC2 rfl⟩

/-- C6: the onchain decider's `verify` returns `NotEnoughSteps` whenever `i ≤ 1`,
independently of every collaborator oracle — so before performing the Groth16
verification or any KZG/pairing check — and for `i > 1` it proceeds to the SNARK and
KZG checks. -/
theorem decider_verify_not_enough_steps {n : Nat} {G SP SVK KVK : Type} (hn : 1 < n)
    (ctx : DeciderCtx (ZMod n) G SP SVK KVK)
    (vp : DeciderVerifierParam (ZMod n) SVK KVK) (i : ZMod n)
    (z_0 z_i : List (ZMod n)) (running_commitments incoming_commitments : List G)
    (proof : DeciderProof (ZMod n) G SP) :
    (i.val ≤ 1 →
      Decider.verify ctx vp i z_0 z_i running_commitments incoming_commitments proof =
        Except.error Error.NotEnoughSteps) ∧
    (1 < i.val →
      Decider.verify ctx vp i z_0 z_i running_commitments incoming_commitments proof =
        Decider.post_checks ctx vp i z_0 z_i running_commitments
          incoming_commitments proof) := by
  have h1 : (1 : ZMod n).val = 1 := by
    rw [ZMod.val_one_eq_one_mod, Nat.mod_eq_of_lt hn]
  constructor
  · intro hi
    rw [Decider.verify, if_pos (by rw [h1]; exact hi)]
  · intro hi
    rw [Decider.verify, if_neg (by rw [h1]; omega)]

/-- C6 witness: the guard evaluated at `i = 1` over `ZMod 97`. -/
theorem decider_verify_not_enough_steps_witness :
    ((1 : ZMod 97).val ≤ 1) ∧
    Decider.verify ctxD vpD 1 [] [] [] [] proofD =
      Except.error Error.NotEnoughSteps :=
  ⟨by decide,
    (decider_verify_not_enough_steps (by norm_num) ctxD vpD 1 [] [] [] [] proofD).1
      (by decide)⟩

end Sonobe
